import Mathlib

/-!
Shallow embedding of the Utill Buddy desktop utility (src/utill_buddy.py)
and proofs about its MouseJiggler, ShortcutManager and clipboard helpers.

The Python program delegates real work (mouse motion, clipboard access,
dialogs, key bindings) to host libraries; those library calls are modelled
as explicit oracles (`MouseApi`, `QtEnv`, dialog results passed as
arguments), and the program's own state (threading events, the shortcut
dictionaries, clipboard contents) is modelled as explicit Lean state.
-/

namespace UtillBuddy

/-! ## MouseJiggler state

`MouseJiggler.__init__` stores an interval, two `threading.Event`s
(`jiggle_event`, `stop_event`), a `thread` field (initially `None`) and an
internal `_jiggle_on_start` flag.  The `thread` field is modelled as
`Option Bool`: `none` when the Python field is `None`, `some alive`
otherwise, where `alive` is what `thread.is_alive()` would return. -/

structure JState where
  interval : Nat
  jiggleEvent : Bool
  stopEvent : Bool
  thread : Option Bool
  jiggleOnStart : Bool
deriving Repr, DecidableEq

/-- `MouseJiggler.__init__(interval)`. -/
def JState.mk0 (interval : Nat) : JState :=
  { interval := interval, jiggleEvent := false, stopEvent := false,
    thread := none, jiggleOnStart := false }

/-- `MouseJiggler.start(jiggle_on_start)`: sets `jiggle_event`; when the
thread field is `None` or the thread is not alive it clears `stop_event`,
stores the flag and spawns a new thread.  The returned `Bool` records
whether a new thread was spawned by this call. -/
def JState.start (jos : Bool) (s : JState) : JState × Bool :=
  let s1 := { s with jiggleEvent := true }
  if s.thread = some true then (s1, false)
  else ({ s1 with stopEvent := false, jiggleOnStart := jos, thread := some true }, true)

/-- `MouseJiggler.pause()`: clears `jiggle_event`. -/
def JState.pause (s : JState) : JState :=
  { s with jiggleEvent := false }

/-- `MouseJiggler.stop()`: clears `jiggle_event`, sets `stop_event`, joins
the thread with timeout `interval + 2` when the field holds an alive
thread, then sets the field to `None`.  The second component records the
timeout passed to `join`, `none` when `join` was not called. -/
def JState.stop (s : JState) : JState × Option Nat :=
  let joined : Option Nat :=
    match s.thread with
    | some true => some (s.interval + 2)
    | _ => none
  ({ s with jiggleEvent := false, stopEvent := true, thread := none }, joined)

/-! ## The mouse library and `_move_mouse`

`pyautogui.position()` and `pyautogui.moveTo(x, y)` may raise; an oracle
records the outcome of each call.  A raising `moveTo` performs no move. -/

structure MouseApi where
  position : Except String (Int × Int)
  moveTo : Int → Int → Option String

/-- The body of `_move_mouse` without the `try/except`: the moves actually
performed, and the exception that escaped the body, if any. -/
def moveMouseBody (api : MouseApi) : List (Int × Int) × Option String :=
  match api.position with
  | .error e => ([], some e)
  | .ok (x, y) =>
    match api.moveTo (x + 1) y with
    | some e => ([], some e)
    | none =>
      match api.moveTo x y with
      | some e => ([(x + 1, y)], some e)
      | none => ([(x + 1, y), (x, y)], none)

/-- `MouseJiggler._move_mouse`: the body wrapped in
`try: ... except Exception as e: print(f"Error moving mouse: {e}")`.
Returns the moves performed and the lines printed; it never raises. -/
def moveMouse (api : MouseApi) : List (Int × Int) × List String :=
  match moveMouseBody api with
  | (ms, some e) => (ms, ["Error moving mouse: " ++ e])
  | (ms, none) => (ms, [])

/-! ## The jiggle loop as a small-step machine

`_jiggle_loop` is

```
while not self.stop_event.is_set():
    if self.jiggle_event.is_set():
        self._move_mouse()
    for _ in range(self.interval):
        if self.stop_event.is_set():
            break
        time.sleep(1)
```

Each program point that reads a flag (or sleeps) is one step; the flags are
read from a schedule giving their value at each global time step, so the
other threads' `set`/`clear` calls are arbitrary interleavings. -/

inductive PC where
  | whileCheck
  | jiggleCheck
  | sleepFor (k : Nat)
  | done
deriving Repr, DecidableEq

inductive JEvent where
  | jiggle (moves : List (Int × Int)) (printed : List String)
  | sleep
deriving Repr, DecidableEq

/-- The flags and library behaviour seen by the loop at each time step. -/
structure Sched where
  stop : Nat → Bool
  jig : Nat → Bool
  api : Nat → MouseApi

/-- One step of `_jiggle_loop` at program counter `pc` and time `t`. -/
def jstep (interval : Nat) (σ : Sched) (pc : PC) (t : Nat) : PC × Option JEvent :=
  match pc with
  | .whileCheck => if σ.stop t then (.done, none) else (.jiggleCheck, none)
  | .jiggleCheck =>
    if σ.jig t then
      let mp := moveMouse (σ.api t)
      (.sleepFor interval, some (.jiggle mp.1 mp.2))
    else (.sleepFor interval, none)
  | .sleepFor 0 => (.whileCheck, none)
  | .sleepFor (k + 1) => if σ.stop t then (.whileCheck, none) else (.sleepFor k, some .sleep)
  | .done => (.done, none)

/-- Run the loop for `fuel` steps from `pc` at time `t`; returns the final
program counter and the time-stamped event trace. -/
def jrun (interval : Nat) (σ : Sched) : Nat → PC → Nat → PC × List (Nat × JEvent)
  | 0, pc, _ => (pc, [])
  | fuel + 1, pc, t =>
    let se := jstep interval σ pc t
    let rest := jrun interval σ fuel se.1 (t + 1)
    (rest.1, match se.2 with
      | some e => (t, e) :: rest.2
      | none => rest.2)

/-! ## Dialogs and messages

`QMessageBox.information`/`QMessageBox.warning` calls are recorded in an
output list.  A `QInputDialog.getText` / `QFileDialog` result is passed in
as `Option String`: `none` when the user cancelled (Python `ok == False`
resp. an empty file path), `some s` when the user confirmed with `s`. -/

inductive Msg where
  | info (title text : String)
  | warning (title text : String)
deriving Repr, DecidableEq

/-! ## ShortcutManager

The manager's state is `user_shortcuts` (an association list, Python dict
with unique keys), `shortcut_objects` (action name to the index of the live
`QShortcut` object) and the list of every `QShortcut` object ever created,
identified by its index in creation order.  `QKeySequence(s).isEmpty()` and
a raising `QShortcut` constructor are modelled by a `QtEnv` oracle. -/

structure SObj where
  action : String
  key : String
  connected : Bool
  keyCleared : Bool
deriving Repr, DecidableEq

/-- A `QShortcut` object is a live binding while its `activated` signal is
connected and its key has not been reset to the empty `QKeySequence`. -/
def SObj.live (o : SObj) : Bool :=
  o.connected && !o.keyCleared

structure QtEnv where
  seqIsEmpty : String → Bool
  createThrows : Bool

structure SMState where
  user_shortcuts : List (String × String)
  shortcut_objects : String → Option Nat
  objects : List SObj

/-- `default_shortcuts` from `ShortcutManager.__init__`; `darwin` is
`platform.system() == "Darwin"`. -/
def default_shortcuts (darwin : Bool) : List (String × String) :=
  [("copy", if darwin then "Meta+C" else "Ctrl+C"),
   ("paste", if darwin then "Meta+V" else "Ctrl+V"),
   ("cut", if darwin then "Meta+X" else "Ctrl+X")]

/-- The keys of `shortcut_action_triggers` built in `main`. -/
def actionHandlers : List String :=
  ["copy", "paste", "cut", "copy_image", "paste_image"]

/-- Update of `shortcut_objects` at one key. -/
def dictUpd (f : String → Option Nat) (k : String) (v : Option Nat) : String → Option Nat :=
  fun a => if a = k then v else f a

/-- Python `d.pop(k, None)` / `del d[k]` on an association list. -/
def alistErase (k : String) (l : List (String × String)) : List (String × String) :=
  l.filter (fun p => p.1 ≠ k)

/-- Python `d[k] = v` on an association list with unique keys. -/
def alistUpd (k v : String) (l : List (String × String)) : List (String × String) :=
  if (l.lookup k).isSome then
    l.map (fun p => if p.1 = k then (k, v) else p)
  else l ++ [(k, v)]

/-- One iteration of the loop in `_initialize_shortcuts` over an item
`(action_name, sequence_str)` of `user_shortcuts`: skipped when the action
has no handler, when the key sequence is empty, or when the `QShortcut`
constructor raises; otherwise a connected `QShortcut` is created and
stored. -/
def init_step (env : QtEnv) (handlers : List String) (s : SMState)
    (p : String × String) : SMState :=
  if p.1 ∈ handlers then
    if env.seqIsEmpty p.2 then s
    else if env.createThrows then s
    else { s with
      objects := s.objects ++ [{ action := p.1, key := p.2, connected := true, keyCleared := false }],
      shortcut_objects := dictUpd s.shortcut_objects p.1 (some s.objects.length) }
  else s

/-- `ShortcutManager._initialize_shortcuts`. -/
def initialize_shortcuts (env : QtEnv) (handlers : List String) (s : SMState) : SMState :=
  s.user_shortcuts.foldl (init_step env handlers) s

/-- `ShortcutManager.__init__`: `user_shortcuts = dict(default_shortcuts)`,
empty `shortcut_objects`, then `_initialize_shortcuts()`. -/
def SMState.init (env : QtEnv) (handlers : List String) (darwin : Bool) : SMState :=
  initialize_shortcuts env handlers
    { user_shortcuts := default_shortcuts darwin,
      shortcut_objects := fun _ => none, objects := [] }

/-- The removal block at the top of the confirmed branch of
`set_shortcut`: when `shortcut_objects` holds an object for the action, its
`activated` signal is disconnected, its key is reset to the empty
`QKeySequence` (which disables it) and it is deleted from the dictionary. -/
def removeBinding (a : String) (s : SMState) : SMState :=
  match s.shortcut_objects a with
  | some i =>
    { s with
      objects := s.objects.set i
        (match s.objects[i]? with
         | some o => { o with connected := false, keyCleared := true }
         | none => { action := a, key := "", connected := false, keyCleared := true }),
      shortcut_objects := dictUpd s.shortcut_objects a none }
  | none => s

/-- The creation block of the valid-sequence branch of `set_shortcut`: a
fresh connected `QShortcut` is created, stored in `shortcut_objects`, and
the sequence string is stored in `user_shortcuts`. -/
def installBinding (a newStr : String) (s : SMState) : SMState :=
  { s with
    objects := s.objects ++ [{ action := a, key := newStr, connected := true, keyCleared := false }],
    shortcut_objects := dictUpd s.shortcut_objects a (some s.objects.length),
    user_shortcuts := alistUpd a newStr s.user_shortcuts }

/-- `ShortcutManager.set_shortcut(action_name)`.  `dialog` is the
`QInputDialog.getText` outcome (`none` = cancelled).  Returns the new state
and the `QMessageBox`es shown. -/
def set_shortcut (env : QtEnv) (handlers : List String) (dialog : Option String)
    (a : String) (s : SMState) : SMState × List Msg :=
  if a ∉ handlers then
    (s, [.warning "Error" ("Action " ++ a ++ " not recognized for shortcut setting.")])
  else
    match dialog with
    | none => (s, [])
    | some newStr =>
      -- remove the old QShortcut, then `self.user_shortcuts.pop(action_name, None)`
      let s1 := removeBinding a s
      let s2 := { s1 with user_shortcuts := alistErase a s1.user_shortcuts }
      if newStr = "" then
        (s2, [.info "Shortcut Cleared"
          ("Shortcut for " ++ a.capitalize ++ " has been cleared.")])
      else if env.seqIsEmpty newStr then
        (s2, [.warning "Invalid Shortcut"
          ("The shortcut sequence " ++ newStr ++ " is invalid and was not set.")])
      else if env.createThrows then
        (s2, [.warning "Error Setting Shortcut"
          ("Could not set shortcut " ++ newStr ++ ".")])
      else
        (installBinding a newStr s2,
         [.info "Shortcut Set"
          ("Shortcut for " ++ a.capitalize ++ " set to " ++ newStr ++ ".")])

/-! ### The one-live-binding-per-action invariant -/

/-- Indices of the live `QShortcut` objects bound to action `a`. -/
def liveIdx (s : SMState) (a : String) : List Nat :=
  (List.range s.objects.length).filter (fun i =>
    match s.objects[i]? with
    | some o => (o.action == a) && o.live
    | none => false)

/-- Every live object is the one registered for its action in
`shortcut_objects`. -/
def Inv (s : SMState) : Prop :=
  ∀ i o, s.objects[i]? = some o → o.live = true → s.shortcut_objects o.action = some i

/-- A sequence of `set_shortcut` calls: each call carries its library
environment, dialog outcome and action name. -/
structure SCall where
  env : QtEnv
  dialog : Option String
  action : String

def runCalls (handlers : List String) (calls : List SCall) (s : SMState) : SMState :=
  calls.foldl (fun s c => (set_shortcut c.env handlers c.dialog c.action s).1) s

/-! ## Clipboard helpers

The clipboard holds text and optionally an image (identified by the path it
was loaded from).  Dialog results are passed in; `QMessageBox` calls are
recorded. -/

structure Clipboard where
  text : String
  image : Option String
deriving Repr, DecidableEq

/-- `copy_text()`: asks for text; on confirm with non-empty text sets the
clipboard text.  No message box is shown on any path. -/
def copy_text (dialog : Option String) (cb : Clipboard) : Clipboard × List Msg :=
  match dialog with
  | some t => if t ≠ "" then ({ cb with text := t }, []) else (cb, [])
  | none => (cb, [])

/-- `paste_text()`: shows the clipboard text in a message box. -/
def paste_text (cb : Clipboard) : Clipboard × List Msg :=
  (cb, [.info "Clipboard Text" ("Clipboard text:\n" ++ cb.text)])

/-- Oracle for `QApplication.clipboard().setText("")` inside `cut_text`:
`some e` means the library call raises `e`. -/
structure ClipEnv where
  setTextFails : Option String

/-- `cut_text()`: reads the clipboard text; when non-empty it calls
`setText("")` (with no `try/except` and no retry — an exception
propagates), then reports the cut text; otherwise warns.  The second
component counts the clipboard-mutation attempts made. -/
def cut_text (env : ClipEnv) (cb : Clipboard) : Except String (Clipboard × List Msg) × Nat :=
  if cb.text ≠ "" then
    match env.setTextFails with
    | some e => (.error e, 1)
    | none =>
      (.ok ({ cb with text := "" },
        [.info "Cut Text" ("Text removed from clipboard:\n" ++ cb.text)]), 1)
  else
    (.ok (cb, [.warning "No Text" "No text in clipboard to cut."]), 0)

/-- Whether `QImage(path)` loads a non-null image. -/
structure ImgEnv where
  imageValid : String → Bool

/-- `copy_image()`: file-open dialog (`none` = cancelled / empty path);
loads the image and sets it on the clipboard when valid. -/
def copy_image (env : ImgEnv) (fileDialog : Option String) (cb : Clipboard) :
    Clipboard × List Msg :=
  match fileDialog with
  | none => (cb, [])
  | some p =>
    if env.imageValid p then
      ({ cb with image := some p }, [.info "Image Copied" "Image copied to clipboard."])
    else
      (cb, [.warning "Error" "Failed to load image."])

/-- Outcome of `image.save(file_path)` in `paste_image`. -/
inductive SaveOutcome where
  | ok
  | ioError (e : String)
  | permError (e : String)
  | otherError (e : String)
deriving Repr, DecidableEq

/-- `paste_image()`: when the clipboard holds an image, asks for a save
path (`none` = cancelled) and saves, mapping each exception class to its
warning; warns when the clipboard has no image. -/
def paste_image (saveDialog : Option String) (saveRes : String → SaveOutcome)
    (cb : Clipboard) : Clipboard × List Msg :=
  match cb.image with
  | none => (cb, [.warning "No Image" "No image in clipboard."])
  | some _ =>
    match saveDialog with
    | none => (cb, [])
    | some path =>
      match saveRes path with
      | .ok => (cb, [.info "Image Saved" ("Image saved as " ++ path)])
      | .ioError e =>
        (cb, [.warning "Save Error" ("Failed to save image due to an I/O error: " ++ e)])
      | .permError e =>
        (cb, [.warning "Save Error" ("Failed to save image due to a permission error: " ++ e)])
      | .otherError e =>
        (cb, [.warning "Save Error" ("An unexpected error occurred while saving the image: " ++ e)])

/-! ## Concrete instances used to evaluate the theorems -/

/-- A schedule where the stop event is set from time 2 on, the jiggle
event is always set and the mouse library always succeeds. -/
def demoSched : Sched :=
  { stop := fun t => decide (2 ≤ t), jig := fun _ => true,
    api := fun _ => { position := .ok (0, 0), moveTo := fun _ _ => none } }

/-- A mouse api whose position read raises. -/
def failApi : MouseApi :=
  { position := .error "boom", moveTo := fun _ _ => none }

/-- A mouse api at (10, 20) whose calls all succeed. -/
def okApi : MouseApi :=
  { position := .ok (10, 20), moveTo := fun _ _ => none }

/-- A jiggler whose thread is alive and jiggling. -/
def demoJiggler : JState :=
  { interval := 60, jiggleEvent := true, stopEvent := false,
    thread := some true, jiggleOnStart := false }

/-- A manager state with one live binding for the copy action. -/
def demoSM : SMState :=
  { user_shortcuts := [("copy", "Ctrl+C")],
    shortcut_objects := fun a => if a = "copy" then some 0 else none,
    objects := [{ action := "copy", key := "Ctrl+C", connected := true, keyCleared := false }] }

/-- A Qt oracle where only the empty string and the string Invalid parse
to an empty key sequence, and the constructor never raises. -/
def demoEnv : QtEnv :=
  { seqIsEmpty := fun s => (s == "") || (s == "Invalid"), createThrows := false }

/-! ## Helper lemmas -/

theorem dictUpd_self (f : String → Option Nat) (k : String) (v : Option Nat) :
    dictUpd f k v k = v := by
  simp [dictUpd]

theorem dictUpd_ne (f : String → Option Nat) (k : String) (v : Option Nat)
    {b : String} (h : b ≠ k) : dictUpd f k v b = f b := by
  simp [dictUpd, h]

theorem lookup_alistErase_self (k : String) (l : List (String × String)) :
    (alistErase k l).lookup k = none := by
  induction l with
  | nil => rfl
  | cons p rest ih =>
    by_cases h : p.1 = k
    · simpa [alistErase, List.filter_cons, h] using ih
    · have hbeq : (k == p.1) = false := by
        simp [beq_eq_false_iff_ne]
        exact fun he => h he.symm
      simpa [alistErase, List.filter_cons, h, List.lookup, hbeq] using ih

theorem getElem?_append_singleton {α : Type} {l : List α} {x : α} {i : Nat} {o : α}
    (h : (l ++ [x])[i]? = some o) :
    (i < l.length ∧ l[i]? = some o) ∨ (i = l.length ∧ o = x) := by
  rcases Nat.lt_trichotomy i l.length with hlt | heq | hgt
  · exact Or.inl ⟨hlt, by rwa [List.getElem?_append_left hlt] at h⟩
  · subst heq
    rw [List.getElem?_concat_length] at h
    exact Or.inr ⟨rfl, (Option.some.inj h).symm⟩
  · exfalso
    have hlen : (l ++ [x]).length ≤ i := by
      simp only [List.length_append, List.length_singleton]
      omega
    rw [List.getElem?_eq_none hlen] at h
    exact Option.noConfusion h

/-! ### Preservation of the one-live-binding invariant -/

theorem removeBinding_dict_self (a : String) (s : SMState) :
    (removeBinding a s).shortcut_objects a = none := by
  unfold removeBinding
  match h : s.shortcut_objects a with
  | some i => simp [dictUpd_self]
  | none => simpa using h

theorem removeBinding_user (a : String) (s : SMState) :
    (removeBinding a s).user_shortcuts = s.user_shortcuts := by
  unfold removeBinding
  match h : s.shortcut_objects a with
  | some i => rfl
  | none => rfl

theorem removeBinding_length (a : String) (s : SMState) :
    (removeBinding a s).objects.length = s.objects.length := by
  unfold removeBinding
  match h : s.shortcut_objects a with
  | some i => simp
  | none => rfl

theorem inv_removeBinding {a : String} {s : SMState} (hInv : Inv s) :
    Inv (removeBinding a s) := by
  unfold removeBinding
  match hdict : s.shortcut_objects a with
  | none => exact hInv
  | some i =>
    intro j o hget hlive
    dsimp only at hget ⊢
    by_cases hji : j = i
    · subst hji
      -- the object at j was overwritten with a dead one
      exfalso
      have hjlt : j < s.objects.length := by
        by_contra hge
        rw [List.getElem?_eq_none (by simpa [List.length_set] using Nat.le_of_not_lt hge)] at hget
        exact Option.noConfusion hget
      rw [List.getElem?_set_self hjlt] at hget
      have := Option.some.inj hget
      subst this
      revert hlive
      match s.objects[j]? with
      | some o' => simp [SObj.live]
      | none => simp [SObj.live]
    · rw [List.getElem?_set_ne (fun he => hji he.symm)] at hget
      have hdicto := hInv j o hget hlive
      have hne : o.action ≠ a := by
        intro he
        rw [he, hdict] at hdicto
        exact hji (Option.some.inj hdicto).symm
      rw [dictUpd_ne _ _ _ hne]
      exact hdicto

theorem inv_installBinding {a newStr : String} {s : SMState} (hInv : Inv s)
    (hnone : s.shortcut_objects a = none) :
    Inv (installBinding a newStr s) := by
  intro j o hget hlive
  unfold installBinding at hget ⊢
  dsimp only at hget ⊢
  rcases getElem?_append_singleton hget with ⟨hlt, hold⟩ | ⟨hj, rfl⟩
  · have hdicto := hInv j o hold hlive
    have hne : o.action ≠ a := by
      intro he
      rw [he, hnone] at hdicto
      exact Option.noConfusion hdicto
    rw [dictUpd_ne _ _ _ hne]
    exact hdicto
  · subst hj
    simpa using dictUpd_self s.shortcut_objects a (some s.objects.length)

theorem inv_set_shortcut (env : QtEnv) (handlers : List String)
    (dialog : Option String) (a : String) {s : SMState} (hInv : Inv s) :
    Inv (set_shortcut env handlers dialog a s).1 := by
  unfold set_shortcut
  split
  · exact hInv
  · match dialog with
    | none => exact hInv
    | some newStr =>
      have h1 : Inv (removeBinding a s) := inv_removeBinding hInv
      have h2 : Inv { removeBinding a s with
          user_shortcuts := alistErase a (removeBinding a s).user_shortcuts } :=
        fun i o hget hlive => h1 i o hget hlive
      have h2d : ({ removeBinding a s with
          user_shortcuts := alistErase a (removeBinding a s).user_shortcuts } :
            SMState).shortcut_objects a = none :=
        removeBinding_dict_self a s
      dsimp only
      split
      · exact h2
      · split
        · exact h2
        · split
          · exact h2
          · exact inv_installBinding h2 h2d

theorem inv_runCalls (handlers : List String) (calls : List SCall) :
    ∀ {s : SMState}, Inv s → Inv (runCalls handlers calls s) := by
  induction calls with
  | nil => intro s h; exact h
  | cons c rest ih =>
    intro s h
    exact ih (inv_set_shortcut c.env handlers c.dialog c.action h)

theorem init_step_objects (env : QtEnv) (handlers : List String) (s : SMState)
    (p : String × String) :
    (init_step env handlers s p).objects = s.objects ∨
    (init_step env handlers s p).objects =
      s.objects ++ [{ action := p.1, key := p.2, connected := true, keyCleared := false }] := by
  unfold init_step
  split
  · split
    · exact Or.inl rfl
    · split
      · exact Or.inl rfl
      · exact Or.inr rfl
  · exact Or.inl rfl

theorem inv_init_step {env : QtEnv} {handlers : List String} {s : SMState}
    {a q : String} (hInv : Inv s)
    (hfresh : ∀ (i : Nat) (o : SObj), s.objects[i]? = some o → o.action ≠ a) :
    Inv (init_step env handlers s (a, q)) := by
  unfold init_step
  split
  · split
    · exact hInv
    · split
      · exact hInv
      · intro j o hget hlive
        dsimp only at hget ⊢
        rcases getElem?_append_singleton hget with ⟨hlt, hold⟩ | ⟨hj, rfl⟩
        · have hdicto := hInv j o hold hlive
          rw [dictUpd_ne _ _ _ (hfresh j o hold)]
          exact hdicto
        · subst hj
          simpa using dictUpd_self s.shortcut_objects a (some s.objects.length)
  · exact hInv

theorem inv_initialize_aux (env : QtEnv) (handlers : List String)
    (l : List (String × String)) :
    ∀ (s : SMState), Inv s →
      (∀ (i : Nat) (o : SObj), s.objects[i]? = some o → o.action ∉ l.map Prod.fst) →
      (l.map Prod.fst).Nodup →
      Inv (l.foldl (init_step env handlers) s) := by
  induction l with
  | nil =>
    intro s hInv _ _
    exact hInv
  | cons p rest ih =>
    obtain ⟨a, q⟩ := p
    intro s hInv hfresh hnd
    simp only [List.foldl_cons]
    have hnd2 : (a :: rest.map Prod.fst).Nodup := by simpa using hnd
    have hndc := List.nodup_cons.mp hnd2
    apply ih
    · exact inv_init_step hInv (fun i o hget he => by
        have h := hfresh i o hget
        simp only [List.map_cons, List.mem_cons] at h
        exact h (Or.inl he))
    · intro i o hget
      rcases init_step_objects env handlers s (a, q) with hobj | hobj
      · rw [hobj] at hget
        have h := hfresh i o hget
        simp only [List.map_cons, List.mem_cons] at h
        exact fun hmem => h (Or.inr hmem)
      · rw [hobj] at hget
        rcases getElem?_append_singleton hget with ⟨_, hold⟩ | ⟨_, rfl⟩
        · have h := hfresh i o hold
          simp only [List.map_cons, List.mem_cons] at h
          exact fun hmem => h (Or.inr hmem)
        · exact hndc.1
    · exact hndc.2

theorem inv_init (env : QtEnv) (handlers : List String) (darwin : Bool) :
    Inv (SMState.init env handlers darwin) := by
  unfold SMState.init initialize_shortcuts
  apply inv_initialize_aux
  · intro i o hget _
    simp at hget
  · intro i o hget
    simp at hget
  · cases darwin <;> decide

theorem liveIdx_le_one {s : SMState} (hInv : Inv s) (a : String) :
    (liveIdx s a).length ≤ 1 := by
  have hnd : (liveIdx s a).Nodup := (List.nodup_range _).filter _
  have hall : ∀ x ∈ liveIdx s a, s.shortcut_objects a = some x := by
    intro x hx
    have hp := List.of_mem_filter hx
    revert hp
    match hobj : s.objects[x]? with
    | some o =>
      intro hp
      simp only [Bool.and_eq_true, beq_iff_eq] at hp
      have hd := hInv x o hobj hp.2
      rwa [hp.1] at hd
    | none =>
      intro hp
      simp at hp
  rcases hli : liveIdx s a with _ | ⟨x, _ | ⟨y, rest⟩⟩
  · simp
  · simp
  · exfalso
    rw [hli] at hnd hall
    have hx := hall x (by simp)
    have hy := hall y (by simp)
    have hxy : x = y := Option.some.inj (hx.symm.trans hy)
    subst hxy
    simp [List.nodup_cons] at hnd

/-! ### Lemmas about the jiggle loop -/

theorem jrun_done (interval : Nat) (σ : Sched) (fuel t : Nat) :
    jrun interval σ fuel .done t = (.done, []) := by
  induction fuel generalizing t with
  | zero => rfl
  | succ f ih => simp [jrun, jstep, ih]

theorem jrun_add (interval : Nat) (σ : Sched) (b : Nat) :
    ∀ (a : Nat) (pc : PC) (t : Nat),
      (jrun interval σ (a + b) pc t).1 =
      (jrun interval σ b (jrun interval σ a pc t).1 (t + a)).1 := by
  intro a
  induction a with
  | zero =>
    intro pc t
    rw [Nat.zero_add]
    rfl
  | succ a ih =>
    intro pc t
    have h1 : a + 1 + b = (a + b) + 1 := by omega
    rw [h1]
    have h2 : (jrun interval σ ((a + b) + 1) pc t).1 =
        (jrun interval σ (a + b) (jstep interval σ pc t).1 (t + 1)).1 := rfl
    have h3 : (jrun interval σ (a + 1) pc t).1 =
        (jrun interval σ a (jstep interval σ pc t).1 (t + 1)).1 := rfl
    rw [h2, h3, ih]
    have h4 : t + 1 + a = t + (a + 1) := by omega
    rw [h4]

theorem jrun_whileCheck_done {interval : Nat} {σ : Sched} {t0 : Nat}
    (hmono : ∀ t t', t ≤ t' → σ.stop t = true → σ.stop t' = true)
    (h0 : σ.stop t0 = true) {fuel t : Nat} (ht : t0 ≤ t) (hf : 1 ≤ fuel) :
    (jrun interval σ fuel .whileCheck t).1 = .done := by
  obtain ⟨f, rfl⟩ : ∃ f, fuel = f + 1 := ⟨fuel - 1, by omega⟩
  have hstop : σ.stop t = true := hmono t0 t ht h0
  simp [jrun, jstep, hstop, jrun_done]

theorem jrun_sleepFor_done {interval : Nat} {σ : Sched} {t0 : Nat}
    (hmono : ∀ t t', t ≤ t' → σ.stop t = true → σ.stop t' = true)
    (h0 : σ.stop t0 = true) {fuel t : Nat} (ht : t0 ≤ t) (hf : 2 ≤ fuel) (k : Nat) :
    (jrun interval σ fuel (.sleepFor k) t).1 = .done := by
  obtain ⟨f, rfl⟩ : ∃ f, fuel = f + 1 := ⟨fuel - 1, by omega⟩
  have hstop : σ.stop t = true := hmono t0 t ht h0
  match k with
  | 0 =>
    have hstep : (jrun interval σ (f + 1) (.sleepFor 0) t).1 =
        (jrun interval σ f .whileCheck (t + 1)).1 := by
      simp [jrun, jstep]
    rw [hstep]
    exact jrun_whileCheck_done hmono h0 (by omega) (by omega)
  | k + 1 =>
    have hstep : (jrun interval σ (f + 1) (.sleepFor (k + 1)) t).1 =
        (jrun interval σ f .whileCheck (t + 1)).1 := by
      simp [jrun, jstep, hstop]
    rw [hstep]
    exact jrun_whileCheck_done hmono h0 (by omega) (by omega)

theorem jrun_pc_done {interval : Nat} {σ : Sched} {t0 : Nat}
    (hmono : ∀ t t', t ≤ t' → σ.stop t = true → σ.stop t' = true)
    (h0 : σ.stop t0 = true) {fuel t : Nat} (ht : t0 ≤ t) (hf : 3 ≤ fuel) (pc : PC) :
    (jrun interval σ fuel pc t).1 = .done := by
  match pc with
  | .done => rw [jrun_done]
  | .whileCheck => exact jrun_whileCheck_done hmono h0 ht (by omega)
  | .sleepFor k => exact jrun_sleepFor_done hmono h0 ht (by omega) k
  | .jiggleCheck =>
    obtain ⟨f, rfl⟩ : ∃ f, fuel = f + 1 := ⟨fuel - 1, by omega⟩
    have hpc : (jstep interval σ .jiggleCheck t).1 = .sleepFor interval := by
      by_cases hj : σ.jig t <;> simp [jstep, hj]
    have hstep : (jrun interval σ (f + 1) .jiggleCheck t).1 =
        (jrun interval σ f (jstep interval σ .jiggleCheck t).1 (t + 1)).1 := rfl
    rw [hstep, hpc]
    exact jrun_sleepFor_done hmono h0 (by omega) (by omega) interval

theorem jrun_moves_le {interval : Nat} {σ : Sched} {t0 : Nat}
    (hmono : ∀ t t', t ≤ t' → σ.stop t = true → σ.stop t' = true)
    (h0 : σ.stop t0 = true) :
    ∀ (fuel : Nat) (pc : PC) (t : Nat), (pc = .jiggleCheck → t ≤ t0) →
      ∀ p ∈ (jrun interval σ fuel pc t).2,
        ∀ ms pr, p.2 = .jiggle ms pr → p.1 ≤ t0 := by
  intro fuel
  induction fuel with
  | zero =>
    intro pc t _ p hp
    simp [jrun] at hp
  | succ f ih =>
    intro pc t hpc p hp ms pr hev
    match pc with
    | .done =>
      rw [jrun_done] at hp
      simp at hp
    | .whileCheck =>
      by_cases hstop : σ.stop t
      · have htr : (jrun interval σ (f + 1) .whileCheck t).2 =
            (jrun interval σ f .done (t + 1)).2 := by
          simp [jrun, jstep, hstop]
        rw [htr, jrun_done] at hp
        simp at hp
      · have htlt : t < t0 := by
          by_contra hge
          exact hstop (hmono t0 t (by omega) h0)
        have htr : (jrun interval σ (f + 1) .whileCheck t).2 =
            (jrun interval σ f .jiggleCheck (t + 1)).2 := by
          simp [jrun, jstep, hstop]
        rw [htr] at hp
        exact ih .jiggleCheck (t + 1) (fun _ => by omega) p hp ms pr hev
    | .jiggleCheck =>
      by_cases hjig : σ.jig t
      · have htr : (jrun interval σ (f + 1) .jiggleCheck t).2 =
            (t, JEvent.jiggle (moveMouse (σ.api t)).1 (moveMouse (σ.api t)).2) ::
              (jrun interval σ f (.sleepFor interval) (t + 1)).2 := by
          simp [jrun, jstep, hjig]
        rw [htr] at hp
        rcases List.mem_cons.mp hp with heq | htail
        · subst heq
          exact hpc rfl
        · exact ih (.sleepFor interval) (t + 1) (fun h => nomatch h) p htail ms pr hev
      · have htr : (jrun interval σ (f + 1) .jiggleCheck t).2 =
            (jrun interval σ f (.sleepFor interval) (t + 1)).2 := by
          simp [jrun, jstep, hjig]
        rw [htr] at hp
        exact ih (.sleepFor interval) (t + 1) (fun h => nomatch h) p hp ms pr hev
    | .sleepFor 0 =>
      have htr : (jrun interval σ (f + 1) (.sleepFor 0) t).2 =
          (jrun interval σ f .whileCheck (t + 1)).2 := by
        simp [jrun, jstep]
      rw [htr] at hp
      exact ih .whileCheck (t + 1) (fun h => nomatch h) p hp ms pr hev
    | .sleepFor (k + 1) =>
      by_cases hstop : σ.stop t
      · have htr : (jrun interval σ (f + 1) (.sleepFor (k + 1)) t).2 =
            (jrun interval σ f .whileCheck (t + 1)).2 := by
          simp [jrun, jstep, hstop]
        rw [htr] at hp
        exact ih .whileCheck (t + 1) (fun h => nomatch h) p hp ms pr hev
      · have htr : (jrun interval σ (f + 1) (.sleepFor (k + 1)) t).2 =
            (t, JEvent.sleep) :: (jrun interval σ f (.sleepFor k) (t + 1)).2 := by
          simp [jrun, jstep, hstop]
        rw [htr] at hp
        rcases List.mem_cons.mp hp with heq | htail
        · subst heq
          exact absurd hev (by simp)
        · exact ih (.sleepFor k) (t + 1) (fun h => nomatch h) p htail ms pr hev

theorem jrun_control_indep (interval : Nat) (σ σ' : Sched)
    (hstop : σ'.stop = σ.stop) (hjig : σ'.jig = σ.jig) :
    ∀ (fuel : Nat) (pc : PC) (t : Nat),
      (jrun interval σ' fuel pc t).1 = (jrun interval σ fuel pc t).1 ∧
      (jrun interval σ' fuel pc t).2.map Prod.fst =
        (jrun interval σ fuel pc t).2.map Prod.fst := by
  intro fuel
  induction fuel with
  | zero =>
    intro pc t
    exact ⟨rfl, rfl⟩
  | succ f ih =>
    intro pc t
    match pc with
    | .done =>
      refine ⟨?_, ?_⟩ <;>
        simp [jrun, jstep, (ih .done (t + 1)).1, (ih .done (t + 1)).2]
    | .whileCheck =>
      by_cases hs : σ.stop t
      · have hs' : σ'.stop t = true := by rw [hstop]; exact hs
        refine ⟨?_, ?_⟩ <;>
          simp [jrun, jstep, hs, hs', (ih .done (t + 1)).1, (ih .done (t + 1)).2]
      · have hs' : ¬σ'.stop t = true := by rw [hstop]; exact hs
        refine ⟨?_, ?_⟩ <;>
          simp [jrun, jstep, hs, hs', (ih .jiggleCheck (t + 1)).1, (ih .jiggleCheck (t + 1)).2]
    | .jiggleCheck =>
      by_cases hj : σ.jig t
      · have hj' : σ'.jig t = true := by rw [hjig]; exact hj
        refine ⟨?_, ?_⟩ <;>
          simp [jrun, jstep, hj, hj',
            (ih (.sleepFor interval) (t + 1)).1, (ih (.sleepFor interval) (t + 1)).2]
      · have hj' : ¬σ'.jig t = true := by rw [hjig]; exact hj
        refine ⟨?_, ?_⟩ <;>
          simp [jrun, jstep, hj, hj',
            (ih (.sleepFor interval) (t + 1)).1, (ih (.sleepFor interval) (t + 1)).2]
    | .sleepFor 0 =>
      refine ⟨?_, ?_⟩ <;>
        simp [jrun, jstep, (ih .whileCheck (t + 1)).1, (ih .whileCheck (t + 1)).2]
    | .sleepFor (k + 1) =>
      by_cases hs : σ.stop t
      · have hs' : σ'.stop t = true := by rw [hstop]; exact hs
        refine ⟨?_, ?_⟩ <;>
          simp [jrun, jstep, hs, hs', (ih .whileCheck (t + 1)).1, (ih .whileCheck (t + 1)).2]
      · have hs' : ¬σ'.stop t = true := by rw [hstop]; exact hs
        refine ⟨?_, ?_⟩ <;>
          simp [jrun, jstep, hs, hs',
            (ih (.sleepFor k) (t + 1)).1, (ih (.sleepFor k) (t + 1)).2]

/-! ## The claims -/

/-- C1: the claim states that every clipboard mutation (setting text in
copy_text, clearing it in cut_text, setting the image in copy_image) is
wrapped in a fixed 3-attempt retry with a warning surfaced after the last
failure.  The code has no such wrapper: with clipboard text "text to cut"
and a clipboard whose setText call raises, cut_text makes exactly one
mutation attempt and the exception propagates, with no warning dialog
shown — contradicting the 3-attempt-then-warn behaviour that the
repository's own test test_cut_text_clear_fails asserts. -/
theorem cut_text_has_no_retry_wrapper :
    cut_text { setTextFails := some "Simulated clear error" }
      { text := "text to cut", image := none } =
      (.error "Simulated clear error", 1) := rfl

/-- C2: starting from a freshly initialized ShortcutManager and after any
sequence of set_shortcut calls (arbitrary dialog outcomes and library
behaviour), every action name has at most one live QShortcut binding:
initialization creates at most one per action, and a confirmed
set_shortcut run disconnects and deletes the existing binding before a new
one is installed. -/
theorem at_most_one_live_binding_per_action
    (env0 : QtEnv) (darwin : Bool) (handlers : List String)
    (calls : List SCall) (a : String) :
    (liveIdx (runCalls handlers calls (SMState.init env0 handlers darwin)) a).length ≤ 1 :=
  liveIdx_le_one (inv_runCalls handlers calls (inv_init env0 handlers darwin)) a

/-- C3: MouseJiggler.stop clears the jiggle event, sets the stop event,
joins the thread with the finite timeout interval + 2 when one is alive,
and leaves the thread field None; afterwards the jiggle-active flag is
false and the stop-requested flag is true. -/
theorem stop_clears_and_joins (s : JState) :
    (s.stop).1.jiggleEvent = false ∧ (s.stop).1.stopEvent = true ∧
    (s.stop).1.thread = none ∧
    (s.thread = some true → (s.stop).2 = some (s.interval + 2)) := by
  refine ⟨rfl, rfl, rfl, fun h => ?_⟩
  simp [JState.stop, h]

theorem stop_clears_and_joins_witness :
    demoJiggler.stop.1.jiggleEvent = false ∧ demoJiggler.stop.1.stopEvent = true ∧
    demoJiggler.stop.1.thread = none ∧ demoJiggler.stop.2 = some 62 :=
  ⟨(stop_clears_and_joins demoJiggler).1, (stop_clears_and_joins demoJiggler).2.1,
   (stop_clears_and_joins demoJiggler).2.2.1,
   (stop_clears_and_joins demoJiggler).2.2.2 rfl⟩

/-- C4: once the stop event is set (true at time t0 and monotone
thereafter), every mouse-movement event in the loop trace is stamped at or
before t0 — at most the in-progress iteration — and the loop terminates:
with t0 + 4 steps of fuel the loop has reached its final program point. -/
theorem loop_stops_after_stop_event (interval : Nat) (σ : Sched) (t0 : Nat)
    (hmono : ∀ t t', t ≤ t' → σ.stop t = true → σ.stop t' = true)
    (h0 : σ.stop t0 = true) :
    (∀ (fuel : Nat) (p : Nat × JEvent), p ∈ (jrun interval σ fuel .whileCheck 0).2 →
      ∀ ms pr, p.2 = .jiggle ms pr → p.1 ≤ t0) ∧
    (∀ fuel : Nat, t0 + 4 ≤ fuel → (jrun interval σ fuel .whileCheck 0).1 = .done) := by
  constructor
  · intro fuel p hp ms pr hev
    exact jrun_moves_le hmono h0 fuel .whileCheck 0 (fun h => nomatch h) p hp ms pr hev
  · intro fuel hf
    have h3 : fuel = (fuel - 3) + 3 := by omega
    rw [h3, jrun_add]
    exact jrun_pc_done hmono h0 (by omega) (by omega) _

theorem loop_stops_after_stop_event_witness :
    (jrun 1 demoSched 6 .whileCheck 0).1 = .done := by
  have h := loop_stops_after_stop_event 1 demoSched 2
    (fun t t' htt hst => by
      simp only [demoSched, decide_eq_true_eq] at hst ⊢
      omega)
    (by simp [demoSched])
  exact h.2 6 (by omega)

/-- C5: cancelling the dialog of copy_text, copy_image, paste_image or
set_shortcut leaves the clipboard, the user shortcut mapping and the
binding table unchanged, and shows no message box. -/
theorem dialog_cancel_is_noop :
    (∀ cb : Clipboard, copy_text none cb = (cb, [])) ∧
    (∀ (env : ImgEnv) (cb : Clipboard), copy_image env none cb = (cb, [])) ∧
    (∀ (saveRes : String → SaveOutcome) (cb : Clipboard) (p : String),
      cb.image = some p → paste_image none saveRes cb = (cb, [])) ∧
    (∀ (env : QtEnv) (handlers : List String) (a : String) (s : SMState),
      a ∈ handlers → set_shortcut env handlers none a s = (s, [])) := by
  refine ⟨fun cb => rfl, fun env cb => rfl, ?_, ?_⟩
  · intro saveRes cb p h
    simp [paste_image, h]
  · intro env handlers a s h
    simp [set_shortcut, h]

theorem dialog_cancel_is_noop_witness :
    paste_image none (fun _ => .ok) { text := "t", image := some "img.png" } =
      ({ text := "t", image := some "img.png" }, []) ∧
    set_shortcut demoEnv actionHandlers none "copy" demoSM = (demoSM, []) :=
  ⟨dialog_cancel_is_noop.2.2.1 (fun _ => .ok) _ "img.png" rfl,
   dialog_cancel_is_noop.2.2.2 demoEnv actionHandlers "copy" demoSM (by decide)⟩

/-- C6: calling start while the thread is alive only sets the jiggle event
(no second thread, no other state change); a new thread is spawned exactly
when the thread field is None or the thread is not alive. -/
theorem start_spawns_at_most_once (jos : Bool) (s : JState) :
    (s.thread = some true →
      JState.start jos s = ({ s with jiggleEvent := true }, false)) ∧
    ((JState.start jos s).2 = true ↔ (s.thread = none ∨ s.thread = some false)) := by
  constructor
  · intro h
    simp [JState.start, h]
  · match h : s.thread with
    | none => simp [JState.start, h]
    | some true => simp [JState.start, h]
    | some false => simp [JState.start, h]

theorem start_spawns_at_most_once_witness :
    JState.start true demoJiggler = ({ demoJiggler with jiggleEvent := true }, false) :=
  (start_spawns_at_most_once true demoJiggler).1 rfl

/-- C7: confirming the set_shortcut dialog with the empty string clears
the binding: the existing QShortcut is disconnected and disabled (its key
reset to the empty sequence) and removed from the table, the stored
sequence is removed, no new binding is created, and the cleared
confirmation is shown. -/
theorem empty_input_clears_shortcut (env : QtEnv) (handlers : List String)
    (a : String) (s : SMState) (i : Nat) (o : SObj)
    (hhand : a ∈ handlers) (hdict : s.shortcut_objects a = some i)
    (hobj : s.objects[i]? = some o) :
    (set_shortcut env handlers (some "") a s).1.shortcut_objects a = none ∧
    (set_shortcut env handlers (some "") a s).1.user_shortcuts.lookup a = none ∧
    (set_shortcut env handlers (some "") a s).1.objects[i]? =
      some { o with connected := false, keyCleared := true } ∧
    (set_shortcut env handlers (some "") a s).1.objects.length = s.objects.length ∧
    (set_shortcut env handlers (some "") a s).2 =
      [Msg.info "Shortcut Cleared" ("Shortcut for " ++ a.capitalize ++ " has been cleared.")] := by
  have hres : set_shortcut env handlers (some "") a s =
      ({ removeBinding a s with
          user_shortcuts := alistErase a (removeBinding a s).user_shortcuts },
       [Msg.info "Shortcut Cleared" ("Shortcut for " ++ a.capitalize ++ " has been cleared.")]) := by
    simp [set_shortcut, hhand]
  have hlt : i < s.objects.length := (List.getElem?_eq_some.mp hobj).1
  have hobj2 : (removeBinding a s).objects[i]? =
      some { o with connected := false, keyCleared := true } := by
    simp only [removeBinding, hdict, hobj]
    exact List.getElem?_set_self hlt
  rw [hres]
  exact ⟨removeBinding_dict_self a s, lookup_alistErase_self a _, hobj2,
    removeBinding_length a s, rfl⟩

theorem empty_input_clears_shortcut_witness :
    (set_shortcut demoEnv actionHandlers (some "") "copy" demoSM).1.shortcut_objects "copy" = none ∧
    (set_shortcut demoEnv actionHandlers (some "") "copy" demoSM).1.user_shortcuts.lookup "copy" = none ∧
    (set_shortcut demoEnv actionHandlers (some "") "copy" demoSM).1.objects[0]? =
      some { action := "copy", key := "Ctrl+C", connected := false, keyCleared := true } ∧
    (set_shortcut demoEnv actionHandlers (some "") "copy" demoSM).1.objects.length =
      demoSM.objects.length ∧
    (set_shortcut demoEnv actionHandlers (some "") "copy" demoSM).2 =
      [Msg.info "Shortcut Cleared" ("Shortcut for " ++ "copy".capitalize ++ " has been cleared.")] :=
  empty_input_clears_shortcut demoEnv actionHandlers "copy" demoSM 0
    { action := "copy", key := "Ctrl+C", connected := true, keyCleared := false }
    (by decide) rfl rfl

/-- C8: an exception from the mouse library inside a jiggle is caught
inside _move_mouse and printed, and the loop control flow (final program
point and event time stamps) does not depend on the mouse library's
behaviour at all, so the loop keeps running on subsequent iterations. -/
theorem move_mouse_failure_is_caught :
    (∀ (api : MouseApi) (e : String), (moveMouseBody api).2 = some e →
      moveMouse api = ((moveMouseBody api).1, ["Error moving mouse: " ++ e])) ∧
    (∀ (interval : Nat) (σ σ' : Sched), σ'.stop = σ.stop → σ'.jig = σ.jig →
      ∀ (fuel : Nat) (pc : PC) (t : Nat),
        (jrun interval σ' fuel pc t).1 = (jrun interval σ fuel pc t).1 ∧
        (jrun interval σ' fuel pc t).2.map Prod.fst =
          (jrun interval σ fuel pc t).2.map Prod.fst) := by
  constructor
  · intro api e he
    have hpair : moveMouseBody api = ((moveMouseBody api).1, some e) := by
      rw [← he]
    have hdef : moveMouse api =
        (match moveMouseBody api with
          | (ms, some e) => (ms, ["Error moving mouse: " ++ e])
          | (ms, none) => (ms, [])) := rfl
    rw [hdef, hpair]
  · exact fun interval σ σ' h1 h2 => jrun_control_indep interval σ σ' h1 h2

theorem move_mouse_failure_is_caught_witness :
    moveMouse failApi = ([], ["Error moving mouse: " ++ "boom"]) ∧
    (jrun 1 { demoSched with api := fun _ => failApi } 6 .whileCheck 0).1 =
      (jrun 1 demoSched 6 .whileCheck 0).1 :=
  ⟨move_mouse_failure_is_caught.1 failApi "boom" rfl,
   (move_mouse_failure_is_caught.2 1 demoSched { demoSched with api := fun _ => failApi }
     rfl rfl 6 .whileCheck 0).1⟩

/-- C9: set_shortcut is not atomic on invalid input: confirming with a
non-empty string that parses to an empty key sequence removes the old
binding and the stored sequence before validation and does not restore
them, so after the warning the action has no binding and no stored
sequence. -/
theorem invalid_input_not_atomic (env : QtEnv) (handlers : List String)
    (a newStr : String) (s : SMState) (i : Nat) (o : SObj)
    (hhand : a ∈ handlers) (hne : newStr ≠ "")
    (hempty : env.seqIsEmpty newStr = true)
    (hdict : s.shortcut_objects a = some i) (hobj : s.objects[i]? = some o) :
    (set_shortcut env handlers (some newStr) a s).1.shortcut_objects a = none ∧
    (set_shortcut env handlers (some newStr) a s).1.user_shortcuts.lookup a = none ∧
    (set_shortcut env handlers (some newStr) a s).1.objects[i]? =
      some { o with connected := false, keyCleared := true } ∧
    (set_shortcut env handlers (some newStr) a s).1.objects.length = s.objects.length ∧
    (set_shortcut env handlers (some newStr) a s).2 =
      [Msg.warning "Invalid Shortcut"
        ("The shortcut sequence " ++ newStr ++ " is invalid and was not set.")] := by
  have hres : set_shortcut env handlers (some newStr) a s =
      ({ removeBinding a s with
          user_shortcuts := alistErase a (removeBinding a s).user_shortcuts },
       [Msg.warning "Invalid Shortcut"
        ("The shortcut sequence " ++ newStr ++ " is invalid and was not set.")]) := by
    simp [set_shortcut, hhand, hne, hempty]
  have hlt : i < s.objects.length := (List.getElem?_eq_some.mp hobj).1
  have hobj2 : (removeBinding a s).objects[i]? =
      some { o with connected := false, keyCleared := true } := by
    simp only [removeBinding, hdict, hobj]
    exact List.getElem?_set_self hlt
  rw [hres]
  exact ⟨removeBinding_dict_self a s, lookup_alistErase_self a _, hobj2,
    removeBinding_length a s, rfl⟩

theorem invalid_input_not_atomic_witness :
    (set_shortcut demoEnv actionHandlers (some "Invalid") "copy" demoSM).1.shortcut_objects "copy" = none ∧
    (set_shortcut demoEnv actionHandlers (some "Invalid") "copy" demoSM).1.user_shortcuts.lookup "copy" = none ∧
    (set_shortcut demoEnv actionHandlers (some "Invalid") "copy" demoSM).1.objects[0]? =
      some { action := "copy", key := "Ctrl+C", connected := false, keyCleared := true } ∧
    (set_shortcut demoEnv actionHandlers (some "Invalid") "copy" demoSM).1.objects.length =
      demoSM.objects.length ∧
    (set_shortcut demoEnv actionHandlers (some "Invalid") "copy" demoSM).2 =
      [Msg.warning "Invalid Shortcut"
        ("The shortcut sequence " ++ "Invalid" ++ " is invalid and was not set.")] :=
  invalid_input_not_atomic demoEnv actionHandlers "copy" "Invalid" demoSM 0
    { action := "copy", key := "Ctrl+C", connected := true, keyCleared := false }
    (by decide) (by decide) rfl rfl rfl

/-- C10: when the mouse library calls succeed, a jiggle reads (x, y),
moves to (x + 1, y), then back to (x, y); the last move target equals the
starting position, so the net pointer position is unchanged. -/
theorem jiggle_restores_position (api : MouseApi) (x y : Int)
    (hpos : api.position = .ok (x, y))
    (hmove : ∀ a b : Int, api.moveTo a b = none) :
    moveMouse api = ([(x + 1, y), (x, y)], []) ∧
    (moveMouse api).1.getLast? = some (x, y) := by
  have hbody : moveMouseBody api = ([(x + 1, y), (x, y)], none) := by
    simp [moveMouseBody, hpos, hmove]
  have hdef : moveMouse api =
      (match moveMouseBody api with
        | (ms, some e) => (ms, ["Error moving mouse: " ++ e])
        | (ms, none) => (ms, [])) := rfl
  rw [hdef, hbody]
  exact ⟨rfl, rfl⟩

theorem jiggle_restores_position_witness :
    moveMouse okApi = ([(10 + 1, 20), (10, 20)], []) ∧
    (moveMouse okApi).1.getLast? = some (10, 20) :=
  jiggle_restores_position okApi 10 20 rfl (fun _ _ => rfl)

end UtillBuddy
